import Mathlib

/-!
# Verification of the AMP-SCZ asset exporter

Shallow embedding of `pipeline/runners/study_specific/ampscz/services/exporter.py`
(the export orchestrator): interview selection, path resolution, the per-interview
transfer/ledger/cleanup sequence, and the study scheduler loop, together with
theorems settling the specification claims about them.

Conventions:
* A filesystem path is its list of components (as produced by Python's
  `Path.parts`; an absolute path starts with the component `"/"`).
* Fallible Python code (raised exceptions) is embedded with `Except` / `Option`.
* The database and the filesystem are explicit state.
-/

namespace Exporter

/-- A filesystem path, as its list of components (Python `Path.parts`). -/
abbrev FPath := List String

/-- Python `Path.name`: the final path component (`""` for an empty path). -/
def pathName (p : FPath) : String := p.getLastD ""

/-! ## Collaborators modelled from the spec

`dpdash.parse_dpdash_name` and `utils.camel_case_split` live in
`pipeline/helpers`, which is not part of the sources under verification; they
are modelled from the spec (§4.1, §4.3). -/

/-- Splits a list of characters on a separator character. -/
def splitOnChar (sep : Char) (cs : List Char) : List (List Char) :=
  cs.foldr
    (fun c acc =>
      match acc with
      | [] => if c = sep then [[], []] else [[c]]
      | g :: gs => if c = sep then [] :: g :: gs else (c :: g) :: gs)
    [[]]

/-- Modelled from the spec: `dpdash.parse_dpdash_name` decodes a structured
interview identifier into `{study, subject, data_type}` (§4.1); the identifier
is a dash-separated name whose first three fields are study, subject and
data-type. Returns `none` on an unparseable name (ParseError). -/
def parse_dpdash_name (name : String) : Option (String × String × String) :=
  match (splitOnChar '-' name.toList).map (fun cs => String.mk cs) with
  | study :: subject :: data_type :: _ => some (study, subject, data_type)
  | _ => none

/-- Modelled from the spec: `utils.camel_case_split` splits a camel-case
identifier into tokens at upper-case boundaries (§4.3 step 2: the first token
is used as the interview-type label). -/
def camel_case_split (s : String) : List String :=
  let groups := s.toList.foldl
    (fun (acc : List (List Char)) c =>
      match acc with
      | [] => [[c]]
      | t :: ts => if c.isUpper then [c] :: t :: ts else (c :: t) :: ts)
    []
  (groups.map (fun cs => String.mk cs.reverse)).reverse

/-! ## Data model (`exporter.py` lines 188-229, `pipeline/models/exported_assets`) -/

/-- One exportable artifact: the tuple
`(asset_path, asset_type, asset_export_type, asset_tag)` built by
`get_pipeline_exports` (`exporter.py` lines 206-229).  `asset_type` and the
other discriminators are runtime strings, as in the Python source (the
`Literal` annotations are not enforced at runtime). -/
structure ExportableAsset where
  asset_path : FPath
  asset_type : String
  asset_export_type : String
  asset_tag : String
deriving DecidableEq, Repr

/-- One ledger row of the `exported_assets` table, as built by
`ExportedAsset(...)` in the main loop (`exporter.py` lines 413-420). -/
structure ExportedAsset where
  interview_name : String
  asset_path : FPath
  asset_type : String
  asset_export_type : String
  asset_tag : String
  asset_destination : FPath
deriving DecidableEq, Repr

/-- The exceptions `get_export_path` can raise: a parse failure of the
interview name, the `IndexError` of `camel_case_split(...)[0]` on an empty
token list, and the `ValueError` of `path_parts.index("processed")` when the
marker is absent. All are uncaught in the caller. -/
inductive ExpErr
  | parseError
  | indexError
  | valueError
deriving DecidableEq, Repr

/-- `construct_export_path` (`exporter.py` lines 232-263): base export path
`data_root / export_type / study / "processed" / subject / "interviews" /
interview_type` where `interview_type` is the first camel-case token of the
parsed data-type. -/
def construct_export_path (data_root : FPath) (interview_name : String)
    (export_type : String) : Except ExpErr FPath :=
  match parse_dpdash_name interview_name with
  | none => .error .parseError
  | some (study, subject, data_type) =>
    match camel_case_split data_type with
    | [] => .error .indexError
    | interview_type :: _ =>
      .ok (data_root ++
        [export_type, study, "processed", subject, "interviews", interview_type])

/-- `get_export_path` (`exporter.py` lines 266-306): destination of one asset.
The `"face_processing_pipeline"` tag is flattened to `base / asset_path.name`;
every other tag takes the components after `path_parts.index("processed")`
(the FIRST occurrence), overridden by `path_parts.index("decrypted")` when
`"decrypted"` occurs among the components.  `path_parts.index("processed")` is
evaluated before the `"decrypted"` check, so a path without a `"processed"`
component raises `ValueError` unconditionally. -/
def get_export_path (data_root : FPath) (interview_name : String)
    (a : ExportableAsset) : Except ExpErr FPath :=
  match construct_export_path data_root interview_name a.asset_export_type with
  | .error e => .error e
  | .ok export_path =>
    if a.asset_tag = "face_processing_pipeline" then
      .ok (export_path ++ [pathName a.asset_path])
    else
      match a.asset_path.indexOf? "processed" with
      | none => .error .valueError
      | some processed_idx =>
        let idx :=
          if a.asset_path.contains "decrypted" then
            a.asset_path.indexOf "decrypted"
          else processed_idx
        .ok (export_path ++ a.asset_path.drop (idx + 1))

/-! ## Operational model of the per-interview transfer
(`exporter.py` lines 405-456)

The filesystem is a map from paths to entry kinds.  Only the entries the
claims observe are tracked: a copy records the top-level destination entry
(destination parent directories created by `mkdir(parents=True)` and the
interior of a tree copied by `copytree` are not observed by any claim and are
not tracked). -/

/-- Kind of a filesystem entry. -/
inductive FsKind
  | file
  | dir
deriving DecidableEq, Repr

/-- Observable side effects of the per-interview body, in program order:
`shutil.copy2`/`shutil.copytree`, the single `db.execute_queries` batch
ledger write, and `unlink`/`rmtree` cleanup deletions. -/
inductive Event
  | copy (src dst : FPath)
  | ledgerWrite (rows : Nat)
  | delete (p : FPath)
deriving DecidableEq, Repr

/-- Mutable state threaded through the per-interview body: the filesystem,
the `exported_assets` table, and the trace of effects performed so far. -/
structure ExpState where
  fs : FPath → Option FsKind
  ledger : List ExportedAsset
  trace : List Event

/-- How one iteration of the `while True` body ends.
`ok` — the body ran to completion and the loop continues.
`crashed` — an exception (copy failure, `ValueError`, parse error) propagated;
the source has no handler around the loop body, so the exception escapes the
loop and the Python process terminates with a traceback and exit code 1.
`exited c` — an explicit `sys.exit(c)`. -/
inductive Outcome
  | ok
  | crashed
  | exited (code : Nat)
deriving DecidableEq, Repr

/-- Result of the copy phase (`for exportable_asset in exports`,
`exporter.py` lines 405-439): either every asset was handled and the built-up
`queries` list is returned, or the loop was left early with the state at the
point of failure. -/
inductive CopyResult
  | ok (st : ExpState) (queries : List ExportedAsset)
  | fail (st : ExpState) (out : Outcome)

/-- The copy phase (`exporter.py` lines 405-439).  Per asset: resolve the
destination (uncaught exception on failure), build the `ExportedAsset` row,
copy — `shutil.copy2` for `"file"` (overwriting the destination entry),
`shutil.copytree` for `"directory"` (raising when the destination exists) —
`sys.exit(1)` on any other kind, then append the row's insert query.  Copies
and their failures are suppressed in debug mode.  `copyFail i` says whether
the i-th asset's copy raises an I/O error (permissions, disk full, ...). -/
def copyLoop (data_root : FPath) (iname : String) (debug : Bool)
    (copyFail : Nat → Bool) :
    List ExportableAsset → Nat → ExpState → List ExportedAsset → CopyResult
  | [], _, st, qs => .ok st qs
  | a :: rest, i, st, qs =>
    match get_export_path data_root iname a with
    | .error _ => .fail st .crashed
    | .ok dst =>
      let row : ExportedAsset :=
        ⟨iname, a.asset_path, a.asset_type, a.asset_export_type, a.asset_tag, dst⟩
      if a.asset_type = "file" then
        if debug then
          copyLoop data_root iname debug copyFail rest (i + 1) st (qs ++ [row])
        else if copyFail i then .fail st .crashed
        else
          copyLoop data_root iname debug copyFail rest (i + 1)
            { st with
              fs := fun p => if p = dst then some .file else st.fs p,
              trace := st.trace ++ [.copy a.asset_path dst] }
            (qs ++ [row])
      else if a.asset_type = "directory" then
        if debug then
          copyLoop data_root iname debug copyFail rest (i + 1) st (qs ++ [row])
        else if copyFail i || (st.fs dst).isSome then .fail st .crashed
        else
          copyLoop data_root iname debug copyFail rest (i + 1)
            { st with
              fs := fun p => if p = dst then some .dir else st.fs p,
              trace := st.trace ++ [.copy a.asset_path dst] }
            (qs ++ [row])
      else .fail st (.exited 1)

/-- One step of the cleanup loop (`exporter.py` lines 448-456): skip
`"frames"`-tagged assets; otherwise `unlink` a file source or `rmtree` a
directory source (removing every entry below it); a source that is neither
(already gone) is left alone. -/
def cleanupAsset (st : ExpState) (a : ExportableAsset) : ExpState :=
  if a.asset_tag = "frames" then st
  else
    match st.fs a.asset_path with
    | some .file =>
      { st with
        fs := fun p => if p = a.asset_path then none else st.fs p,
        trace := st.trace ++ [.delete a.asset_path] }
    | some .dir =>
      { st with
        fs := fun p => if a.asset_path.isPrefixOf p then none else st.fs p,
        trace := st.trace ++ [.delete a.asset_path] }
    | none => st

/-- The cleanup loop over the interview's assets (`exporter.py` lines 448-456). -/
def cleanup (exports : List ExportableAsset) (st : ExpState) : ExpState :=
  exports.foldl cleanupAsset st

/-- The per-interview body of the main loop (`exporter.py` lines 405-456):
copy every asset building the insert queries, then — unless in debug mode —
persist all rows in one `db.execute_queries` batch and run cleanup.  An
exception anywhere aborts the body with the state reached so far. -/
def processInterview (data_root : FPath) (iname : String) (debug : Bool)
    (copyFail : Nat → Bool) (exports : List ExportableAsset)
    (st : ExpState) : ExpState × Outcome :=
  match copyLoop data_root iname debug copyFail exports 0 st [] with
  | .fail st' out => (st', out)
  | .ok st' qs =>
    if debug then (st', .ok)
    else
      let st'' : ExpState :=
        { st' with
          ledger := st'.ledger ++ qs,
          trace := st'.trace ++ [.ledgerWrite qs.length] }
      (cleanup exports st'', .ok)

/-! ## Interview selection (`exporter.py` lines 51-78) -/

/-- A row of the `pdf_reports` table (only the columns the selection query
reads). -/
structure PdfReport where
  interview_name : String
  study_id : String
deriving DecidableEq, Repr

/-- The database tables read by `get_interview_name_to_process`:
`pdf_reports`, `load_openface` (joined only on `interview_name`) and the
`exported_assets` ledger. -/
structure Db where
  pdf_reports : List PdfReport
  load_openface : List String
  exported_assets : List ExportedAsset

/-- `LEFT JOIN load_openface USING (interview_name)`: every `pdf_reports` row
is kept, duplicated once per matching `load_openface` row. -/
def leftJoinOpenface (pdf : List PdfReport) (lof : List String) :
    List PdfReport :=
  pdf.flatMap fun r =>
    match lof.filter (fun i => i = r.interview_name) with
    | [] => [r]
    | ms => ms.map fun _ => r

/-- `get_interview_name_to_process` (`exporter.py` lines 51-78): the SQL
query selects `interview_name` from `pdf_reports LEFT JOIN load_openface`,
restricted to the study and to names with no `exported_assets` row, then
`ORDER BY RANDOM() LIMIT 1`.  `shuffle` stands for `ORDER BY RANDOM()` (any
permutation); `db.fetch_record` returns the single row or `None`. -/
def get_interview_name_to_process (db : Db)
    (shuffle : List String → List String) (study_id : String) :
    Option String :=
  let joined := leftJoinOpenface db.pdf_reports db.load_openface
  let exportedNames := db.exported_assets.map (fun r => r.interview_name)
  let candidates :=
    (joined.filter fun r =>
        r.study_id = study_id ∧ r.interview_name ∉ exportedNames).map
      (fun r => r.interview_name)
  (shuffle candidates).head?

/-! ## Scheduler loop (`exporter.py` lines 355-390)

The loop keeps the current `study_id` (a value, compared against
`studies[-1]` and looked up with `studies.index`), the since-last-report
`COUNTER`, and — abstractly — the per-study backlog: the number of interviews
the selection query can still return for that study.  A processed interview's
ledger rows remove it from the candidate set (see the selection theorems), so
a selection decrements the study's backlog by one. -/

/-- Observable actions of one pass through the scheduler's `while True` body. -/
inductive SchedEvent
  | select (study : String)
  | advance (study : String)
  | report (count : Nat)
  | snooze
deriving DecidableEq, Repr

/-- Scheduler state: the cursor (`study_id`), the `COUNTER`, and the
per-study backlog of still-selectable interviews. -/
structure SchedState where
  study_id : String
  counter : Nat
  backlog : String → Nat

/-- One iteration of the scheduler loop body (`exporter.py` lines 360-390).
If the study has no selectable interview (`interview_name is None`): at the
last study, log the counter when positive and reset it, snooze, and restart
from the first study; otherwise advance to the next study.  If an interview
is found, process it (incrementing `COUNTER`; its ledger rows shrink the
study's backlog by one). -/
def schedStep (studies : List String) (st : SchedState) :
    SchedState × List SchedEvent :=
  if st.backlog st.study_id = 0 then
    if st.study_id = studies.getLastD "" then
      let evs := (if 0 < st.counter then [SchedEvent.report st.counter] else [])
        ++ [SchedEvent.snooze]
      let counter' := if 0 < st.counter then 0 else st.counter
      ({ st with counter := counter', study_id := studies.headD "" }, evs)
    else
      let nxt := studies.getD (studies.indexOf st.study_id + 1) ""
      ({ st with study_id := nxt }, [SchedEvent.advance nxt])
  else
    ({ st with
        counter := st.counter + 1,
        backlog := fun s =>
          if s = st.study_id then st.backlog s - 1 else st.backlog s },
      [SchedEvent.select st.study_id])

/-- `n` iterations of the scheduler loop, collecting the emitted events. -/
def schedRun (studies : List String) : Nat → SchedState → SchedState × List SchedEvent
  | 0, st => (st, [])
  | n + 1, st =>
    let r := schedStep studies st
    let r' := schedRun studies n r.1
    (r'.1, r.2 ++ r'.2)

/-- Decidable equality of `Except` results (not provided by core). -/
instance {ε α : Type} [DecidableEq ε] [DecidableEq α] :
    DecidableEq (Except ε α)
  | .error e₁, .error e₂ =>
    if h : e₁ = e₂ then .isTrue (by rw [h])
    else .isFalse (by intro hc; cases hc; exact h rfl)
  | .error _, .ok _ => .isFalse (by intro hc; cases hc)
  | .ok _, .error _ => .isFalse (by intro hc; cases hc)
  | .ok v₁, .ok v₂ =>
    if h : v₁ = v₂ then .isTrue (by rw [h])
    else .isFalse (by intro hc; cases hc; exact h rfl)

/-! ## Helper lemmas on list search -/

/-- The first occurrence of `x` in `pre ++ x :: post` with `x ∉ pre` is at
index `pre.length`. -/
theorem indexOf?_append_cons_self {x : String} (pre post : List String)
    (h : x ∉ pre) : (pre ++ x :: post).indexOf? x = some pre.length := by
  induction pre with
  | nil => simp [List.indexOf?_cons]
  | cons a t ih =>
    have ha : ¬(a == x) := by
      simp only [beq_iff_eq]
      exact fun hax => h (hax ▸ List.mem_cons_self a t)
    rw [List.cons_append, List.indexOf?_cons, if_neg ha,
      ih (fun hm => h (List.mem_cons_of_mem a hm))]
    rfl

/-- `List.indexOf` version of `indexOf?_append_cons_self`. -/
theorem indexOf_append_cons_self {x : String} (pre post : List String)
    (h : x ∉ pre) : (pre ++ x :: post).indexOf x = pre.length := by
  rw [List.indexOf_append_of_not_mem h, List.indexOf_cons_self, Nat.add_zero]

/-- Dropping past the head of the suffix of `pre ++ x :: post`. -/
theorem drop_append_cons_succ {x : String} (pre post : List String) :
    (pre ++ x :: post).drop (pre.length + 1) = post := by
  rw [← List.drop_drop, List.drop_left, List.drop_succ_cons, List.drop_zero]

/-- If `x` occurs in `l`, `l.indexOf? x` finds some index. -/
theorem indexOf?_isSome_of_mem {x : String} {l : List String} (h : x ∈ l) :
    ∃ k, l.indexOf? x = some k := by
  cases hk : l.indexOf? x with
  | some k => exact ⟨k, rfl⟩
  | none =>
    have := List.indexOf?_eq_none_iff.1 hk x h
    simp at this

/-- If `x` does not occur in `l`, `l.indexOf? x = none`. -/
theorem indexOf?_eq_none_of_not_mem {x : String} {l : List String} (h : x ∉ l) :
    l.indexOf? x = none :=
  List.indexOf?_eq_none_iff.2 fun y hy => by
    simp only [beq_iff_eq]
    exact fun hyx => h (hyx ▸ hy)

/-! ## Claim theorems: path resolution (C4, C5, C10) -/

/-- C5: for a flattened-family (`"face_processing_pipeline"`) artifact, the
destination is `base / basename(source_path)`, with
`base = export_root / access_tier / study / "processed" / subject /
"interviews" / interview_type` and `interview_type` the first camel-case
token of the parsed data-type. -/
theorem flattened_family_destination
    (data_root : FPath) (iname : String) (a : ExportableAsset)
    (study subject dt ty : String) (toks : List String)
    (hparse : parse_dpdash_name iname = some (study, subject, dt))
    (hsplit : camel_case_split dt = ty :: toks)
    (htag : a.asset_tag = "face_processing_pipeline") :
    get_export_path data_root iname a =
      .ok ((data_root ++
            [a.asset_export_type, study, "processed", subject, "interviews", ty]) ++
          [pathName a.asset_path]) := by
  unfold get_export_path construct_export_path
  rw [hparse]
  dsimp only
  rw [hsplit]
  dsimp only
  rw [htag, if_pos rfl]

/-- Witness for C5: the concrete example of the claim,
interview `"ChicagoA-XX1-followupInterview"`, PROTECTED flattened artifact
`/proc/feature_output/subjXX1_face`. -/
theorem flattened_family_destination_witness :
    parse_dpdash_name "ChicagoA-XX1-followupInterview" =
        some ("ChicagoA", "XX1", "followupInterview")
    ∧ camel_case_split "followupInterview" = ["followup", "Interview"]
    ∧ get_export_path ["/", "export"] "ChicagoA-XX1-followupInterview"
        ⟨["/", "proc", "feature_output", "subjXX1_face"], "directory", "PROTECTED",
          "face_processing_pipeline"⟩ =
      .ok ["/", "export", "PROTECTED", "ChicagoA", "processed", "XX1", "interviews",
        "followup", "subjXX1_face"] :=
  ⟨by decide, by decide,
    flattened_family_destination ["/", "export"] "ChicagoA-XX1-followupInterview"
      ⟨["/", "proc", "feature_output", "subjXX1_face"], "directory", "PROTECTED",
        "face_processing_pipeline"⟩
      "ChicagoA" "XX1" "followupInterview" "followup" ["Interview"]
      (by decide) (by decide) rfl⟩

/-- C10: structure-preserving path resolution is partial.  For a
non-flattened artifact, `path_parts.index("processed")` is evaluated before
the `"decrypted"` check, so when no `"processed"` component is present the
call raises an uncaught `ValueError` — whether or not `"decrypted"` is
present; with a `"processed"` component present, resolution succeeds. -/
theorem structure_preserving_requires_processed_marker
    (data_root : FPath) (iname : String) (base : FPath) (a : ExportableAsset)
    (htag : a.asset_tag ≠ "face_processing_pipeline")
    (hbase : construct_export_path data_root iname a.asset_export_type = .ok base) :
    ("processed" ∉ a.asset_path →
      get_export_path data_root iname a = .error .valueError)
    ∧ ("processed" ∈ a.asset_path →
      ∃ d, get_export_path data_root iname a = .ok d) := by
  unfold get_export_path
  rw [hbase]
  dsimp only
  rw [if_neg htag]
  constructor
  · intro hnp
    rw [indexOf?_eq_none_of_not_mem hnp]
  · intro hp
    obtain ⟨k, hk⟩ := indexOf?_isSome_of_mem hp
    rw [hk]
    exact ⟨_, rfl⟩

/-- Witness for C10: a source path with a `"decrypted"` component but no
`"processed"` component still raises `ValueError`, and a path with
`"processed"` resolves. -/
theorem structure_preserving_requires_processed_marker_witness :
    ((⟨["/", "data", "decrypted", "ChicagoA", "b.mp4"], "file", "PROTECTED",
        "streams"⟩ : ExportableAsset).asset_tag ≠ "face_processing_pipeline")
    ∧ construct_export_path ["/", "export"] "ChicagoA-XX1-followupInterview"
        "PROTECTED" =
      .ok ["/", "export", "PROTECTED", "ChicagoA", "processed", "XX1",
        "interviews", "followup"]
    ∧ (("processed" ∉ (["/", "data", "decrypted", "ChicagoA", "b.mp4"] : FPath) →
        get_export_path ["/", "export"] "ChicagoA-XX1-followupInterview"
          ⟨["/", "data", "decrypted", "ChicagoA", "b.mp4"], "file", "PROTECTED",
            "streams"⟩ = .error .valueError)
      ∧ ("processed" ∈ (["/", "data", "decrypted", "ChicagoA", "b.mp4"] : FPath) →
        ∃ d, get_export_path ["/", "export"] "ChicagoA-XX1-followupInterview"
          ⟨["/", "data", "decrypted", "ChicagoA", "b.mp4"], "file", "PROTECTED",
            "streams"⟩ = .ok d)) :=
  ⟨by decide, by decide,
    structure_preserving_requires_processed_marker ["/", "export"]
      "ChicagoA-XX1-followupInterview"
      ["/", "export", "PROTECTED", "ChicagoA", "processed", "XX1", "interviews",
        "followup"]
      ⟨["/", "data", "decrypted", "ChicagoA", "b.mp4"], "file", "PROTECTED",
        "streams"⟩
      (by decide) (by decide)⟩

/-- Modelled from the spec's words (§4.3 step 5, for comparison only): the
relative path after the LAST occurrence of the processing-root marker,
preferring the more specific marker `"decrypted"` over `"processed"`. -/
def relative_after_last_marker (parts : FPath) : Option FPath :=
  let marker := if parts.contains "decrypted" then "decrypted" else "processed"
  match parts.reverse.indexOf? marker with
  | none => none
  | some k => some (parts.drop (parts.length - k))

/-- C4 counterexample: the code uses `list.index`, the FIRST occurrence of
the marker, not the last.  On a source whose components contain `"decrypted"`
twice, the resolved destination keeps everything after the first
`"decrypted"`, which differs from the spec's after-the-last-occurrence
relative path `["b.mp4"]`. -/
theorem structure_preserving_first_not_last_counterexample :
    relative_after_last_marker
        ["/", "data", "processed", "decrypted", "a", "decrypted", "b.mp4"] =
      some ["b.mp4"]
    ∧ get_export_path ["/", "export"] "ChicagoA-XX1-followupInterview"
        ⟨["/", "data", "processed", "decrypted", "a", "decrypted", "b.mp4"],
          "file", "PROTECTED", "streams"⟩ =
      .ok ["/", "export", "PROTECTED", "ChicagoA", "processed", "XX1",
        "interviews", "followup", "a", "decrypted", "b.mp4"]
    ∧ get_export_path ["/", "export"] "ChicagoA-XX1-followupInterview"
        ⟨["/", "data", "processed", "decrypted", "a", "decrypted", "b.mp4"],
          "file", "PROTECTED", "streams"⟩ ≠
      .ok (["/", "export", "PROTECTED", "ChicagoA", "processed", "XX1",
        "interviews", "followup"] ++ ["b.mp4"]) := by
  refine ⟨by decide, by decide, by decide⟩

/-- C4 (amended: the marker occurrence used is the FIRST, not the last): for
a non-flattened artifact whose components contain `"processed"`, the
destination appends the components after the first occurrence of
`"decrypted"` when `"decrypted"` is present, otherwise after the first
occurrence of `"processed"`. -/
theorem structure_preserving_destination
    (data_root : FPath) (iname : String) (base : FPath) (a : ExportableAsset)
    (pre post : List String)
    (htag : a.asset_tag ≠ "face_processing_pipeline")
    (hbase : construct_export_path data_root iname a.asset_export_type = .ok base)
    (hproc : "processed" ∈ a.asset_path) :
    ("decrypted" ∈ a.asset_path →
      a.asset_path = pre ++ "decrypted" :: post → "decrypted" ∉ pre →
      get_export_path data_root iname a = .ok (base ++ post))
    ∧ ("decrypted" ∉ a.asset_path →
      a.asset_path = pre ++ "processed" :: post → "processed" ∉ pre →
      get_export_path data_root iname a = .ok (base ++ post)) := by
  constructor
  · intro hdec hsplit hnotpre
    obtain ⟨k, hk⟩ := indexOf?_isSome_of_mem hproc
    have hcont : a.asset_path.contains "decrypted" = true := by
      simpa using hdec
    unfold get_export_path
    rw [hbase]
    dsimp only
    rw [if_neg htag, hk]
    dsimp only
    rw [hcont, if_pos rfl]
    conv_lhs => rw [hsplit]
    rw [indexOf_append_cons_self pre post hnotpre,
      drop_append_cons_succ pre post]
  · intro hdec hsplit hnotpre
    have hcont : a.asset_path.contains "decrypted" = false := by
      simpa using hdec
    obtain ⟨k, hk⟩ := indexOf?_isSome_of_mem hproc
    have hk' : k = pre.length := by
      rw [hsplit, indexOf?_append_cons_self pre post hnotpre] at hk
      exact (Option.some.injEq _ _ ▸ hk).symm
    unfold get_export_path
    rw [hbase]
    dsimp only
    rw [if_neg htag, hk]
    dsimp only
    rw [hcont]
    simp only [Bool.false_eq_true, if_false]
    rw [hk']
    conv_lhs => rw [hsplit]
    rw [drop_append_cons_succ pre post]

/-- Witness for C4 (amended): the concrete example of the claim — source
`/data/processed/decrypted/ChicagoA/XX1/video/stream_1.mp4` contains
`"decrypted"`, so the appended relative path begins after (the first)
`"decrypted"`. -/
theorem structure_preserving_destination_witness :
    ((⟨["/", "data", "processed", "decrypted", "ChicagoA", "XX1", "video",
        "stream_1.mp4"], "file", "PROTECTED", "streams"⟩ :
        ExportableAsset).asset_tag ≠ "face_processing_pipeline")
    ∧ construct_export_path ["/", "export"] "ChicagoA-XX1-followupInterview"
        "PROTECTED" =
      .ok ["/", "export", "PROTECTED", "ChicagoA", "processed", "XX1",
        "interviews", "followup"]
    ∧ "processed" ∈ (["/", "data", "processed", "decrypted", "ChicagoA", "XX1",
        "video", "stream_1.mp4"] : FPath)
    ∧ ("decrypted" ∈ (["/", "data", "processed", "decrypted", "ChicagoA", "XX1",
          "video", "stream_1.mp4"] : FPath) →
        (["/", "data", "processed", "decrypted", "ChicagoA", "XX1", "video",
          "stream_1.mp4"] : FPath) =
          ["/", "data", "processed"] ++ "decrypted" ::
            ["ChicagoA", "XX1", "video", "stream_1.mp4"] →
        "decrypted" ∉ (["/", "data", "processed"] : List String) →
        get_export_path ["/", "export"] "ChicagoA-XX1-followupInterview"
          ⟨["/", "data", "processed", "decrypted", "ChicagoA", "XX1", "video",
            "stream_1.mp4"], "file", "PROTECTED", "streams"⟩ =
          .ok (["/", "export", "PROTECTED", "ChicagoA", "processed", "XX1",
            "interviews", "followup"] ++
            ["ChicagoA", "XX1", "video", "stream_1.mp4"])) :=
  ⟨by decide, by decide, by decide,
    (structure_preserving_destination ["/", "export"]
      "ChicagoA-XX1-followupInterview"
      ["/", "export", "PROTECTED", "ChicagoA", "processed", "XX1", "interviews",
        "followup"]
      ⟨["/", "data", "processed", "decrypted", "ChicagoA", "XX1", "video",
        "stream_1.mp4"], "file", "PROTECTED", "streams"⟩
      ["/", "data", "processed"] ["ChicagoA", "XX1", "video", "stream_1.mp4"]
      (by decide) (by decide) (by decide)).1⟩

/-! ## Structural lemmas about the copy phase -/

/-- A successful copy phase: leaves the ledger untouched, appends one row
per asset (all for this interview) to the queries, appends only copy events
to the trace (one per asset when not in debug mode), and changes the
filesystem only at resolved destinations. -/
theorem copyLoop_ok_spec (data_root : FPath) (iname : String) (debug : Bool)
    (cf : Nat → Bool) :
    ∀ (exports : List ExportableAsset) (i : Nat) (st : ExpState)
      (qs : List ExportedAsset) (st' : ExpState) (qs' : List ExportedAsset),
    copyLoop data_root iname debug cf exports i st qs = .ok st' qs' →
    st'.ledger = st.ledger
    ∧ (∃ rows, qs' = qs ++ rows ∧ rows.length = exports.length
        ∧ ∀ r ∈ rows, r.interview_name = iname)
    ∧ (∃ tr, st'.trace = st.trace ++ tr
        ∧ (∀ e ∈ tr, ∃ s d, e = Event.copy s d)
        ∧ (debug = false → ∀ a ∈ exports, ∃ d,
            get_export_path data_root iname a = .ok d
            ∧ Event.copy a.asset_path d ∈ tr))
    ∧ (∀ p, (∀ a ∈ exports, ∀ d,
          get_export_path data_root iname a = .ok d → d ≠ p) →
        st'.fs p = st.fs p) := by
  intro exports
  induction exports with
  | nil =>
    intro i st qs st' qs' h
    simp only [copyLoop] at h
    cases h
    exact ⟨rfl, ⟨[], by simp, rfl, by simp⟩,
      ⟨[], by simp, by simp, fun _ a ha => absurd ha (List.not_mem_nil a)⟩,
      fun p _ => rfl⟩
  | cons a rest ih =>
    intro i st qs st' qs' h
    simp only [copyLoop] at h
    split at h
    · exact CopyResult.noConfusion h
    next dst heq =>
      split at h
      next hfile =>
        split at h
        next hdbg =>
          obtain ⟨hled, ⟨rows', hqs, hlen, hnames⟩, ⟨tr', htr, hcopies, _⟩, hfs⟩ :=
            ih _ _ _ _ _ h
          refine ⟨hled, ⟨⟨iname, a.asset_path, a.asset_type, a.asset_export_type,
            a.asset_tag, dst⟩ :: rows', ?_, by simp [hlen], ?_⟩,
            ⟨tr', htr, hcopies, ?_⟩, ?_⟩
          · simpa [List.append_assoc] using hqs
          · intro r hr
            rcases List.mem_cons.1 hr with hr | hr
            · rw [hr]
            · exact hnames r hr
          · intro hdf
            rw [hdf] at hdbg
            exact absurd hdbg (by simp)
          · intro p hp
            exact hfs p fun b hb d hd =>
              hp b (List.mem_cons_of_mem a hb) d hd
        next hdbg =>
          split at h
          next => exact CopyResult.noConfusion h
          next hcf =>
            obtain ⟨hled, ⟨rows', hqs, hlen, hnames⟩, ⟨tr', htr, hcopies, hcover⟩,
              hfs⟩ := ih _ _ _ _ _ h
            refine ⟨hled, ⟨⟨iname, a.asset_path, a.asset_type, a.asset_export_type,
              a.asset_tag, dst⟩ :: rows', ?_, by simp [hlen], ?_⟩,
              ⟨Event.copy a.asset_path dst :: tr', ?_, ?_, ?_⟩, ?_⟩
            · simpa [List.append_assoc] using hqs
            · intro r hr
              rcases List.mem_cons.1 hr with hr | hr
              · rw [hr]
              · exact hnames r hr
            · simpa [List.append_assoc] using htr
            · intro e he
              rcases List.mem_cons.1 he with hh | hh
              · exact ⟨_, _, hh⟩
              · exact hcopies e hh
            · intro hdf b hb
              rcases List.mem_cons.1 hb with hb | hb
              · subst hb
                exact ⟨dst, heq, List.mem_cons_self _ _⟩
              · obtain ⟨d, hgd, hmem⟩ := hcover hdf b hb
                exact ⟨d, hgd, List.mem_cons_of_mem _ hmem⟩
            · intro p hp
              have hne : dst ≠ p := hp a (List.mem_cons_self a rest) dst heq
              rw [hfs p fun b hb d hd => hp b (List.mem_cons_of_mem a hb) d hd]
              exact if_neg fun hpd => hne hpd.symm
      next hfile =>
        split at h
        next hdir =>
          split at h
          next hdbg =>
            obtain ⟨hled, ⟨rows', hqs, hlen, hnames⟩, ⟨tr', htr, hcopies, _⟩,
              hfs⟩ := ih _ _ _ _ _ h
            refine ⟨hled, ⟨⟨iname, a.asset_path, a.asset_type, a.asset_export_type,
              a.asset_tag, dst⟩ :: rows', ?_, by simp [hlen], ?_⟩,
              ⟨tr', htr, hcopies, ?_⟩, ?_⟩
            · simpa [List.append_assoc] using hqs
            · intro r hr
              rcases List.mem_cons.1 hr with hr | hr
              · rw [hr]
              · exact hnames r hr
            · intro hdf
              rw [hdf] at hdbg
              exact absurd hdbg (by simp)
            · intro p hp
              exact hfs p fun b hb d hd =>
                hp b (List.mem_cons_of_mem a hb) d hd
          next hdbg =>
            split at h
            next => exact CopyResult.noConfusion h
            next hcf =>
              obtain ⟨hled, ⟨rows', hqs, hlen, hnames⟩,
                ⟨tr', htr, hcopies, hcover⟩, hfs⟩ := ih _ _ _ _ _ h
              refine ⟨hled, ⟨⟨iname, a.asset_path, a.asset_type,
                a.asset_export_type, a.asset_tag, dst⟩ :: rows', ?_,
                by simp [hlen], ?_⟩,
                ⟨Event.copy a.asset_path dst :: tr', ?_, ?_, ?_⟩, ?_⟩
              · simpa [List.append_assoc] using hqs
              · intro r hr
                rcases List.mem_cons.1 hr with hr | hr
                · rw [hr]
                · exact hnames r hr
              · simpa [List.append_assoc] using htr
              · intro e he
                rcases List.mem_cons.1 he with hh | hh
                · exact ⟨_, _, hh⟩
                · exact hcopies e hh
              · intro hdf b hb
                rcases List.mem_cons.1 hb with hb | hb
                · subst hb
                  exact ⟨dst, heq, List.mem_cons_self _ _⟩
                · obtain ⟨d, hgd, hmem⟩ := hcover hdf b hb
                  exact ⟨d, hgd, List.mem_cons_of_mem _ hmem⟩
              · intro p hp
                have hne : dst ≠ p := hp a (List.mem_cons_self a rest) dst heq
                rw [hfs p fun b hb d hd => hp b (List.mem_cons_of_mem a hb) d hd]
                exact if_neg fun hpd => hne hpd.symm
        next => exact CopyResult.noConfusion h

/-- An aborted copy phase: the state at the point of failure has the same
ledger, only copy events appended to the trace, no filesystem entry removed,
and the outcome is never `ok`. -/
theorem copyLoop_fail_spec (data_root : FPath) (iname : String) (debug : Bool)
    (cf : Nat → Bool) :
    ∀ (exports : List ExportableAsset) (i : Nat) (st : ExpState)
      (qs : List ExportedAsset) (st' : ExpState) (out : Outcome),
    copyLoop data_root iname debug cf exports i st qs = .fail st' out →
    st'.ledger = st.ledger
    ∧ (∃ tr, st'.trace = st.trace ++ tr ∧ ∀ e ∈ tr, ∃ s d, e = Event.copy s d)
    ∧ (∀ p, st.fs p ≠ none → st'.fs p ≠ none)
    ∧ out ≠ .ok := by
  intro exports
  induction exports with
  | nil =>
    intro i st qs st' out h
    simp only [copyLoop] at h
    exact CopyResult.noConfusion h
  | cons a rest ih =>
    intro i st qs st' out h
    simp only [copyLoop] at h
    split at h
    · cases h
      exact ⟨rfl, ⟨[], by simp, by simp⟩, fun p hp => hp, by simp⟩
    next dst heq =>
      split at h
      next hfile =>
        split at h
        next hdbg => exact ih _ _ _ _ _ h
        next hdbg =>
          split at h
          next hcf =>
            cases h
            exact ⟨rfl, ⟨[], by simp, by simp⟩, fun p hp => hp, by simp⟩
          next hcf =>
            obtain ⟨hled, ⟨tr', htr, hcopies⟩, hfs, hout⟩ := ih _ _ _ _ _ h
            refine ⟨hled, ⟨Event.copy a.asset_path dst :: tr', ?_, ?_⟩, ?_, hout⟩
            · simpa [List.append_assoc] using htr
            · intro e he
              rcases List.mem_cons.1 he with hh | hh
              · exact ⟨_, _, hh⟩
              · exact hcopies e hh
            · intro p hp
              refine hfs p ?_
              by_cases hpd : p = dst <;> simp [hpd, hp]
      next hfile =>
        split at h
        next hdir =>
          split at h
          next hdbg => exact ih _ _ _ _ _ h
          next hdbg =>
            split at h
            next hcf =>
              cases h
              exact ⟨rfl, ⟨[], by simp, by simp⟩, fun p hp => hp, by simp⟩
            next hcf =>
              obtain ⟨hled, ⟨tr', htr, hcopies⟩, hfs, hout⟩ := ih _ _ _ _ _ h
              refine ⟨hled, ⟨Event.copy a.asset_path dst :: tr', ?_, ?_⟩, ?_, hout⟩
              · simpa [List.append_assoc] using htr
              · intro e he
                rcases List.mem_cons.1 he with hh | hh
                · exact ⟨_, _, hh⟩
                · exact hcopies e hh
              · intro p hp
                refine hfs p ?_
                by_cases hpd : p = dst <;> simp [hpd, hp]
        next =>
          cases h
          exact ⟨rfl, ⟨[], by simp, by simp⟩, fun p hp => hp, by simp⟩

/-! ## Structural lemmas about the cleanup phase -/

/-- One cleanup step never touches the ledger. -/
theorem cleanupAsset_ledger (st : ExpState) (a : ExportableAsset) :
    (cleanupAsset st a).ledger = st.ledger := by
  unfold cleanupAsset
  split
  · rfl
  · split <;> rfl

/-- One cleanup step appends only delete events to the trace. -/
theorem cleanupAsset_trace (st : ExpState) (a : ExportableAsset) :
    ∃ dr, (cleanupAsset st a).trace = st.trace ++ dr
      ∧ ∀ e ∈ dr, ∃ p, e = Event.delete p := by
  unfold cleanupAsset
  split
  · exact ⟨[], by simp, by simp⟩
  · split
    · exact ⟨[Event.delete a.asset_path], rfl, by simp⟩
    · exact ⟨[Event.delete a.asset_path], rfl, by simp⟩
    · exact ⟨[], by simp, by simp⟩

/-- One cleanup step never creates a filesystem entry. -/
theorem cleanupAsset_fs_none (st : ExpState) (a : ExportableAsset)
    (p : FPath) (h : st.fs p = none) : (cleanupAsset st a).fs p = none := by
  unfold cleanupAsset
  split
  · exact h
  · split
    · dsimp only
      split <;> [rfl; exact h]
    · dsimp only
      split <;> [rfl; exact h]
    · exact h

/-- The cleanup step for a non-`"frames"` asset leaves no entry at the
asset's source path. -/
theorem cleanupAsset_removes (st : ExpState) (a : ExportableAsset)
    (htag : a.asset_tag ≠ "frames") :
    (cleanupAsset st a).fs a.asset_path = none := by
  unfold cleanupAsset
  rw [if_neg htag]
  split
  next hfs => simp
  next hfs => simp [List.isPrefixOf_iff_prefix]
  next hfs => exact hfs

/-- `isPrefixOf` is reflexive. -/
theorem isPrefixOf_self (l : List String) : l.isPrefixOf l = true := by
  simp [List.isPrefixOf_iff_prefix]

/-- A cleanup step leaves every path untouched that is not at or below the
source of a deletable (non-`"frames"`) asset. -/
theorem cleanupAsset_preserve (st : ExpState) (a : ExportableAsset)
    (p : FPath)
    (h : a.asset_tag ≠ "frames" → a.asset_path.isPrefixOf p = false) :
    (cleanupAsset st a).fs p = st.fs p := by
  unfold cleanupAsset
  split
  · rfl
  next htag =>
    have hpre := h htag
    split
    · dsimp only
      rw [if_neg]
      intro hpq
      rw [hpq, isPrefixOf_self] at hpre
      exact Bool.noConfusion hpre
    · dsimp only
      rw [if_neg]
      simp [hpre]
    · rfl

/-- Unfolding one step of the cleanup fold. -/
theorem cleanup_cons (a : ExportableAsset) (rest : List ExportableAsset)
    (st : ExpState) :
    cleanup (a :: rest) st = cleanup rest (cleanupAsset st a) := rfl

/-- The cleanup loop never touches the ledger. -/
theorem cleanup_ledger (exports : List ExportableAsset) :
    ∀ st : ExpState, (cleanup exports st).ledger = st.ledger := by
  induction exports with
  | nil => intro st; rfl
  | cons a rest ih =>
    intro st
    rw [cleanup_cons]
    exact (ih (cleanupAsset st a)).trans (cleanupAsset_ledger st a)

/-- The cleanup loop appends only delete events to the trace. -/
theorem cleanup_trace (exports : List ExportableAsset) :
    ∀ st : ExpState, ∃ dr, (cleanup exports st).trace = st.trace ++ dr
      ∧ ∀ e ∈ dr, ∃ p, e = Event.delete p := by
  induction exports with
  | nil => intro st; exact ⟨[], (List.append_nil _).symm, by simp⟩
  | cons a rest ih =>
    intro st
    obtain ⟨d1, h1, hd1⟩ := cleanupAsset_trace st a
    obtain ⟨d2, h2, hd2⟩ := ih (cleanupAsset st a)
    refine ⟨d1 ++ d2, ?_, ?_⟩
    · rw [cleanup_cons, h2, h1, List.append_assoc]
    · intro e he
      rcases List.mem_append.1 he with he | he
      · exact hd1 e he
      · exact hd2 e he

/-- The cleanup loop never creates a filesystem entry. -/
theorem cleanup_fs_none (exports : List ExportableAsset) :
    ∀ (st : ExpState) (p : FPath), st.fs p = none →
      (cleanup exports st).fs p = none := by
  induction exports with
  | nil => intro st p h; exact h
  | cons a rest ih =>
    intro st p h
    rw [cleanup_cons]
    exact ih (cleanupAsset st a) p (cleanupAsset_fs_none st a p h)

/-- After the cleanup loop, the source of every non-`"frames"` asset of the
batch is gone. -/
theorem cleanup_removes (exports : List ExportableAsset) :
    ∀ (st : ExpState) (a : ExportableAsset), a ∈ exports →
      a.asset_tag ≠ "frames" → (cleanup exports st).fs a.asset_path = none := by
  induction exports with
  | nil => intro st a ha; exact absurd ha (List.not_mem_nil a)
  | cons b rest ih =>
    intro st a ha htag
    rw [cleanup_cons]
    rcases List.mem_cons.1 ha with rfl | ha
    · exact cleanup_fs_none rest (cleanupAsset st a) a.asset_path
        (cleanupAsset_removes st a htag)
    · exact ih (cleanupAsset st b) a ha htag

/-- The cleanup loop preserves every path not at or below the source of a
deletable asset of the batch. -/
theorem cleanup_preserve (exports : List ExportableAsset) :
    ∀ (st : ExpState) (p : FPath),
      (∀ b ∈ exports, b.asset_tag ≠ "frames" →
        b.asset_path.isPrefixOf p = false) →
      (cleanup exports st).fs p = st.fs p := by
  induction exports with
  | nil => intro st p _; rfl
  | cons b rest ih =>
    intro st p h
    rw [cleanup_cons]
    rw [ih (cleanupAsset st b) p
      (fun c hc hct => h c (List.mem_cons_of_mem b hc) hct)]
    exact cleanupAsset_preserve st b p (h b (List.mem_cons_self b rest))

/-! ## Claim theorems: transfer engine (C2, C3, C7, C8) -/

/-- C2: when the batch transfer of an interview aborts on an exception (a
copy failure on any artifact), no ledger row is written for the interview and
no source path is deleted — the filesystem loses no entry and the trace gains
only copy events, so the sources of the artifacts copied before the failing
one are intact. -/
theorem transfer_failure_writes_nothing
    (data_root : FPath) (iname : String) (cf : Nat → Bool)
    (exports : List ExportableAsset) (st st' : ExpState)
    (h : processInterview data_root iname false cf exports st = (st', .crashed)) :
    st'.ledger = st.ledger
    ∧ (∃ tr, st'.trace = st.trace ++ tr ∧ ∀ e ∈ tr, ∃ s d, e = Event.copy s d)
    ∧ (∀ p, st.fs p ≠ none → st'.fs p ≠ none) := by
  unfold processInterview at h
  cases hc : copyLoop data_root iname false cf exports 0 st [] with
  | ok st1 qs =>
    rw [hc] at h
    simp at h
  | fail st1 out =>
    rw [hc] at h
    injection h with h1 h2
    subst h1
    subst h2
    obtain ⟨hled, htr, hfs, _⟩ :=
      copyLoop_fail_spec _ _ _ _ _ _ _ _ _ _ hc
    exact ⟨hled, htr, hfs⟩

/-- The spec's failure-atomicity scenario: three stream artifacts for one
interview, the copy of the second one fails. -/
def failScenarioExports : List ExportableAsset :=
  [⟨["/", "data", "processed", "decrypted", "s1.mp4"], "file", "PROTECTED",
    "streams"⟩,
   ⟨["/", "data", "processed", "decrypted", "s2.mp4"], "file", "PROTECTED",
    "streams"⟩,
   ⟨["/", "data", "processed", "decrypted", "s3.mp4"], "file", "PROTECTED",
    "streams"⟩]

/-- Initial state for the failure scenario: the three sources exist. -/
def failScenarioSt : ExpState :=
  ⟨fun p => if p.contains "data" then some .file else none, [], []⟩

/-- Running the failure scenario. -/
def failScenarioRun : ExpState × Outcome :=
  processInterview ["/", "export"] "ChicagoA-XX1-followupInterview" false
    (fun i => i == 1) failScenarioExports failScenarioSt

/-- Witness for C2: in the failure scenario the batch crashes, zero ledger
rows are written, only copy events happened, and the first artifact's source
(like every pre-existing entry) is not deleted. -/
theorem transfer_failure_writes_nothing_witness :
    failScenarioRun = (failScenarioRun.1, Outcome.crashed)
    ∧ (failScenarioRun.1.ledger = failScenarioSt.ledger
      ∧ (∃ tr, failScenarioRun.1.trace = failScenarioSt.trace ++ tr
          ∧ ∀ e ∈ tr, ∃ s d, e = Event.copy s d)
      ∧ ∀ p, failScenarioSt.fs p ≠ none → failScenarioRun.1.fs p ≠ none) :=
  ⟨rfl,
    transfer_failure_writes_nothing ["/", "export"]
      "ChicagoA-XX1-followupInterview" (fun i => i == 1) failScenarioExports
      failScenarioSt failScenarioRun.1 rfl⟩

/-- C3: in a completed (non-debug) interview body the trace is exactly:
first copy events — one per artifact of the batch — then the single batch
ledger write, then only delete events.  No deletion precedes the ledger
write and no ledger write precedes the completion of all copies. -/
theorem copy_then_ledger_then_delete
    (data_root : FPath) (iname : String) (cf : Nat → Bool)
    (exports : List ExportableAsset) (st st' : ExpState)
    (h : processInterview data_root iname false cf exports st = (st', .ok))
    (h0 : st.trace = []) :
    ∃ A n B, st'.trace = A ++ Event.ledgerWrite n :: B
      ∧ (∀ e ∈ A, ∃ s d, e = Event.copy s d)
      ∧ (∀ a ∈ exports, ∃ d, get_export_path data_root iname a = .ok d
          ∧ Event.copy a.asset_path d ∈ A)
      ∧ (∀ e ∈ B, ∃ p, e = Event.delete p) := by
  unfold processInterview at h
  cases hc : copyLoop data_root iname false cf exports 0 st [] with
  | fail st1 out =>
    rw [hc] at h
    injection h with h1 h2
    obtain ⟨_, _, _, hout⟩ := copyLoop_fail_spec _ _ _ _ _ _ _ _ _ _ hc
    exact absurd h2 hout
  | ok st1 qs =>
    rw [hc] at h
    simp only [Bool.false_eq_true, if_false, Prod.mk.injEq, and_true] at h
    subst h
    obtain ⟨_, _, ⟨tr, htr, hcopies, hcover⟩, _⟩ :=
      copyLoop_ok_spec _ _ _ _ _ _ _ _ _ _ hc
    obtain ⟨dr, hdr, hdel⟩ := cleanup_trace exports
      ⟨st1.fs, st1.ledger ++ qs, st1.trace ++ [Event.ledgerWrite qs.length]⟩
    refine ⟨tr, qs.length, dr, ?_, hcopies, fun a ha => hcover rfl a ha, hdel⟩
    rw [hdr]
    show (st1.trace ++ [Event.ledgerWrite qs.length]) ++ dr = _
    rw [htr, h0]
    simp

/-- A successful-export scenario: one stream file, one frames directory, one
openface directory (the three artifact families of `get_pipeline_exports`),
no copy failures. -/
def okScenarioExports : List ExportableAsset :=
  [⟨["/", "data", "processed", "decrypted", "s1.mp4"], "file", "PROTECTED",
    "streams"⟩,
   ⟨["/", "data", "processed", "decrypted", "frames", "s1"], "directory",
    "PROTECTED", "frames"⟩,
   ⟨["/", "data", "processed", "decrypted", "of", "s1"], "directory",
    "PROTECTED", "openface"⟩]

/-- Initial state for the success scenario: exactly the three sources exist. -/
def okScenarioSt : ExpState :=
  ⟨fun p =>
    if p = ["/", "data", "processed", "decrypted", "s1.mp4"] then some .file
    else if p = ["/", "data", "processed", "decrypted", "frames", "s1"] then
      some .dir
    else if p = ["/", "data", "processed", "decrypted", "of", "s1"] then
      some .dir
    else none, [], []⟩

/-- Running the success scenario. -/
def okScenarioRun : ExpState × Outcome :=
  processInterview ["/", "export"] "ChicagoA-XX1-followupInterview" false
    (fun _ => false) okScenarioExports okScenarioSt

/-- Witness for C3: the success scenario completes, and its trace is copies,
then the batch ledger write, then deletes. -/
theorem copy_then_ledger_then_delete_witness :
    okScenarioRun = (okScenarioRun.1, Outcome.ok)
    ∧ okScenarioSt.trace = []
    ∧ ∃ A n B, okScenarioRun.1.trace = A ++ Event.ledgerWrite n :: B
      ∧ (∀ e ∈ A, ∃ s d, e = Event.copy s d)
      ∧ (∀ a ∈ okScenarioExports, ∃ d,
          get_export_path ["/", "export"] "ChicagoA-XX1-followupInterview" a =
            .ok d ∧ Event.copy a.asset_path d ∈ A)
      ∧ (∀ e ∈ B, ∃ p, e = Event.delete p) :=
  ⟨rfl, rfl,
    copy_then_ledger_then_delete ["/", "export"]
      "ChicagoA-XX1-followupInterview" (fun _ => false) okScenarioExports
      okScenarioSt okScenarioRun.1 rfl rfl⟩

/-- C7: after a successful (non-debug) export, the source of every
non-`"frames"` artifact of the batch is removed, while a `"frames"`-tagged
artifact's source is untouched (hence still present when it existed),
provided no deletable source lies at or above it and no resolved destination
collides with it. -/
theorem frames_sources_kept_others_removed
    (data_root : FPath) (iname : String) (cf : Nat → Bool)
    (exports : List ExportableAsset) (st st' : ExpState)
    (h : processInterview data_root iname false cf exports st = (st', .ok)) :
    (∀ b ∈ exports, b.asset_tag ≠ "frames" → st'.fs b.asset_path = none)
    ∧ (∀ a ∈ exports, a.asset_tag = "frames" →
        (∀ b ∈ exports, b.asset_tag ≠ "frames" →
          b.asset_path.isPrefixOf a.asset_path = false) →
        (∀ b ∈ exports,
          get_export_path data_root iname b ≠ .ok a.asset_path) →
        st'.fs a.asset_path = st.fs a.asset_path) := by
  unfold processInterview at h
  cases hc : copyLoop data_root iname false cf exports 0 st [] with
  | fail st1 out =>
    rw [hc] at h
    injection h with h1 h2
    obtain ⟨_, _, _, hout⟩ := copyLoop_fail_spec _ _ _ _ _ _ _ _ _ _ hc
    exact absurd h2 hout
  | ok st1 qs =>
    rw [hc] at h
    simp only [Bool.false_eq_true, if_false, Prod.mk.injEq, and_true] at h
    subst h
    constructor
    · intro b hb htag
      exact cleanup_removes exports _ b hb htag
    · intro a ha htag hsrc hdst
      have h1 := cleanup_preserve exports
        ⟨st1.fs, st1.ledger ++ qs, st1.trace ++ [Event.ledgerWrite qs.length]⟩
        a.asset_path hsrc
      have h2 := (copyLoop_ok_spec _ _ _ _ _ _ _ _ _ _ hc).2.2.2 a.asset_path
        (fun b hb d hd hdp => hdst b hb (hdp ▸ hd))
      exact h1.trans h2

/-- Witness for C7: in the success scenario the stream and openface sources
are gone afterwards, while the frames source is exactly as before (and hence
still present). -/
theorem frames_sources_kept_others_removed_witness :
    okScenarioRun = (okScenarioRun.1, Outcome.ok)
    ∧ ((∀ b ∈ okScenarioExports, b.asset_tag ≠ "frames" →
        okScenarioRun.1.fs b.asset_path = none)
      ∧ (∀ a ∈ okScenarioExports, a.asset_tag = "frames" →
          (∀ b ∈ okScenarioExports, b.asset_tag ≠ "frames" →
            b.asset_path.isPrefixOf a.asset_path = false) →
          (∀ b ∈ okScenarioExports,
            get_export_path ["/", "export"] "ChicagoA-XX1-followupInterview" b ≠
              .ok a.asset_path) →
          okScenarioRun.1.fs a.asset_path = okScenarioSt.fs a.asset_path)) :=
  ⟨rfl,
    frames_sources_kept_others_removed ["/", "export"]
      "ChicagoA-XX1-followupInterview" (fun _ => false) okScenarioExports
      okScenarioSt okScenarioRun.1 rfl⟩

/-- C8 counterexample: a transfer error does terminate the process.  In the
failure scenario (copy failure on the second artifact) the loop body ends in
`crashed`: the exception has no handler in `exporter.py`, so it escapes the
`while True` loop and the Python process dies with a traceback (non-zero
exit) instead of continuing with the next scheduling decision. -/
theorem transfer_error_not_recovered_counterexample :
    failScenarioRun.2 = Outcome.crashed ∧ failScenarioRun.2 ≠ Outcome.ok :=
  ⟨rfl, by decide⟩

/-- C8 (amended: a transfer error aborts the current interview's batch but
also terminates the process): a copy failure on the first artifact makes the
loop body end in `crashed` — an uncaught exception, i.e. non-zero process
termination — never in `ok`; so non-zero termination occurs on transfer
errors as well as on startup errors and unknown artifact kinds. -/
theorem transfer_error_crashes_loop
    (data_root : FPath) (iname : String) (cf : Nat → Bool)
    (a : ExportableAsset) (rest : List ExportableAsset) (st : ExpState)
    (d : FPath)
    (hres : get_export_path data_root iname a = .ok d)
    (htype : a.asset_type = "file")
    (hfail : cf 0 = true) :
    (processInterview data_root iname false cf (a :: rest) st).2 =
      Outcome.crashed
    ∧ (processInterview data_root iname false cf (a :: rest) st).2 ≠
      Outcome.ok := by
  have hcl : copyLoop data_root iname false cf (a :: rest) 0 st [] =
      .fail st .crashed := by
    simp only [copyLoop]
    rw [hres]
    dsimp only
    rw [htype, if_pos rfl]
    simp only [Bool.false_eq_true, if_false]
    rw [hfail, if_pos rfl]
  unfold processInterview
  rw [hcl]
  exact ⟨rfl, by simp⟩

/-- Witness for C8 (amended): a copy failure on the very first stream
artifact crashes the loop body. -/
theorem transfer_error_crashes_loop_witness :
    get_export_path ["/", "export"] "ChicagoA-XX1-followupInterview"
        ⟨["/", "data", "processed", "decrypted", "s1.mp4"], "file", "PROTECTED",
          "streams"⟩ =
      .ok ["/", "export", "PROTECTED", "ChicagoA", "processed", "XX1",
        "interviews", "followup", "s1.mp4"]
    ∧ (⟨["/", "data", "processed", "decrypted", "s1.mp4"], "file", "PROTECTED",
        "streams"⟩ : ExportableAsset).asset_type = "file"
    ∧ (fun _ : Nat => true) 0 = true
    ∧ ((processInterview ["/", "export"] "ChicagoA-XX1-followupInterview" false
        (fun _ => true)
        (⟨["/", "data", "processed", "decrypted", "s1.mp4"], "file", "PROTECTED",
          "streams"⟩ :: []) failScenarioSt).2 = Outcome.crashed
      ∧ (processInterview ["/", "export"] "ChicagoA-XX1-followupInterview" false
        (fun _ => true)
        (⟨["/", "data", "processed", "decrypted", "s1.mp4"], "file", "PROTECTED",
          "streams"⟩ :: []) failScenarioSt).2 ≠ Outcome.ok) :=
  ⟨by decide, rfl, rfl,
    transfer_error_crashes_loop ["/", "export"]
      "ChicagoA-XX1-followupInterview" (fun _ => true)
      ⟨["/", "data", "processed", "decrypted", "s1.mp4"], "file", "PROTECTED",
        "streams"⟩ [] failScenarioSt
      ["/", "export", "PROTECTED", "ChicagoA", "processed", "XX1", "interviews",
        "followup", "s1.mp4"]
      (by decide) rfl rfl⟩

/-! ## Claim theorems: interview selection (C1) -/

/-- The selection query's `NOT IN (SELECT interview_name FROM
exported_assets)` filter: an interview with any ledger row is never
returned, for any `ORDER BY RANDOM()` permutation. -/
theorem selection_skips_ledgered (db : Db)
    (shuffle : List String → List String) (sid I : String)
    (hsh : ∀ l, List.Perm (shuffle l) l)
    (hI : ∃ r ∈ db.exported_assets, r.interview_name = I) :
    get_interview_name_to_process db shuffle sid ≠ some I := by
  intro h
  unfold get_interview_name_to_process at h
  obtain ⟨ys, hys⟩ := List.head?_eq_some_iff.1 h
  have hmem : I ∈ I :: ys := List.mem_cons_self I ys
  rw [← hys] at hmem
  have hm2 := ((hsh _).mem_iff).1 hmem
  obtain ⟨r, hr, hrI⟩ := List.mem_map.1 hm2
  have hfil := (List.mem_filter.1 hr).2
  rw [decide_eq_true_iff] at hfil
  refine hfil.2 ?_
  obtain ⟨r0, hr0, hr0I⟩ := hI
  rw [hrI]
  exact List.mem_map.2 ⟨r0, hr0, hr0I⟩

/-- C1: (first half) whenever the `exported_assets` ledger has a row for an
interview `I`, `get_interview_name_to_process` never returns `I`; (second
half) after a successful non-debug run of the per-interview body for `I`
with at least one artifact, the rows just written make any later selection
skip `I` — re-running Artifact Discovery does not re-select it. -/
theorem ledgered_interview_never_reselected (db : Db)
    (shuffle : List String → List String) (sid I : String)
    (hsh : ∀ l, List.Perm (shuffle l) l) :
    ((∃ r ∈ db.exported_assets, r.interview_name = I) →
      get_interview_name_to_process db shuffle sid ≠ some I)
    ∧ (∀ (data_root : FPath) (cf : Nat → Bool)
        (exports : List ExportableAsset) (st st' : ExpState),
        exports ≠ [] →
        processInterview data_root I false cf exports st = (st', .ok) →
        ∀ (pr : List PdfReport) (lof : List String),
          get_interview_name_to_process ⟨pr, lof, st'.ledger⟩ shuffle sid ≠
            some I) := by
  constructor
  · exact selection_skips_ledgered db shuffle sid I hsh
  · intro data_root cf exports st st' hne h pr lof
    refine selection_skips_ledgered ⟨pr, lof, st'.ledger⟩ shuffle sid I hsh ?_
    unfold processInterview at h
    cases hc : copyLoop data_root I false cf exports 0 st [] with
    | fail st1 out =>
      rw [hc] at h
      injection h with h1 h2
      obtain ⟨_, _, _, hout⟩ := copyLoop_fail_spec _ _ _ _ _ _ _ _ _ _ hc
      exact absurd h2 hout
    | ok st1 qs =>
      rw [hc] at h
      simp only [Bool.false_eq_true, if_false, Prod.mk.injEq, and_true] at h
      subst h
      obtain ⟨_, ⟨rows, hqs, hlen, hnames⟩, _, _⟩ :=
        copyLoop_ok_spec _ _ _ _ _ _ _ _ _ _ hc
      have hrow : ∃ r, r ∈ rows := by
        cases rows with
        | nil =>
          rw [List.length_nil] at hlen
          exact absurd (List.eq_nil_of_length_eq_zero hlen.symm) hne
        | cons r rs => exact ⟨r, List.mem_cons_self r rs⟩
      obtain ⟨r, hr⟩ := hrow
      refine ⟨r, ?_, hnames r hr⟩
      show r ∈ (cleanup exports
        ⟨st1.fs, st1.ledger ++ qs,
          st1.trace ++ [Event.ledgerWrite qs.length]⟩).ledger
      rw [cleanup_ledger]
      show r ∈ st1.ledger ++ qs
      rw [hqs, List.nil_append]
      exact List.mem_append.2 (Or.inr hr)

/-- Running the success scenario appended ledger rows for the interview. -/
def okScenarioDb : Db :=
  ⟨[⟨"ChicagoA-XX1-followupInterview", "ChicagoA"⟩], [],
    okScenarioRun.1.ledger⟩

/-- Witness for C1: with the identity permutation, the interview exported by
the success scenario is not re-selected, and an interview with a ledger row
is never selected. -/
theorem ledgered_interview_never_reselected_witness :
    (∀ l : List String, List.Perm ((fun l => l) l) l)
    ∧ (((∃ r ∈ okScenarioDb.exported_assets,
          r.interview_name = "ChicagoA-XX1-followupInterview") →
        get_interview_name_to_process okScenarioDb (fun l => l) "ChicagoA" ≠
          some "ChicagoA-XX1-followupInterview")
      ∧ (∀ (data_root : FPath) (cf : Nat → Bool)
          (exports : List ExportableAsset) (st st' : ExpState),
          exports ≠ [] →
          processInterview data_root "ChicagoA-XX1-followupInterview" false cf
            exports st = (st', .ok) →
          ∀ (pr : List PdfReport) (lof : List String),
            get_interview_name_to_process ⟨pr, lof, st'.ledger⟩ (fun l => l)
              "ChicagoA" ≠ some "ChicagoA-XX1-followupInterview")) :=
  ⟨fun l => List.Perm.refl l,
    ledgered_interview_never_reselected okScenarioDb (fun l => l) "ChicagoA"
      "ChicagoA-XX1-followupInterview" (fun l => List.Perm.refl l)⟩

/-! ## Helper lemmas for the scheduler -/

/-- `studies[-1]` of a nonempty list is its last element. -/
theorem getLastD_eq_getElem (l : List String) (h : 0 < l.length) :
    l.getLastD "" = l[l.length - 1] := by
  rw [List.getLastD_eq_getLast?, List.getLast?_eq_getElem?,
    List.getElem?_eq_getElem (Nat.sub_lt h Nat.one_pos)]
  rfl

/-- `studies[0]` of a nonempty list is its head. -/
theorem headD_eq_getElem (l : List String) (h : 0 < l.length) :
    l.headD "" = l[0] := by
  cases l with
  | nil => exact absurd h (by simp)
  | cons a t => rfl

/-- `List.getD` at an in-range index. -/
theorem getD_eq_getElem (l : List String) (i : Nat) (h : i < l.length) :
    l.getD i "" = l[i] := by
  rw [List.getD_eq_getElem?_getD, List.getElem?_eq_getElem h]
  rfl

/-- In a duplicate-free list, elements at different positions differ. -/
theorem nodup_getElem_ne (l : List String) (hnd : l.Nodup) (i j : Nat)
    (hi : i < l.length) (hj : j < l.length) (hij : i ≠ j) : l[i] ≠ l[j] := by
  intro hc
  have h1 := List.indexOf_getElem hnd i hi
  have h2 := List.indexOf_getElem hnd j hj
  rw [hc] at h1
  rw [h1] at h2
  exact hij h2

/-- In a duplicate-free list, `l[j]` does not occur before position `j`. -/
theorem nodup_getElem_not_mem_take (l : List String) (hnd : l.Nodup) (j : Nat)
    (hj : j < l.length) : l[j] ∉ l.take j := by
  have hsplit : l.take j ++ l.drop j = l := List.take_append_drop j l
  have hnd' : (l.take j ++ l.drop j).Nodup := by rw [hsplit]; exact hnd
  have hdisj := (List.nodup_append.1 hnd').2.2
  have hmem : l[j] ∈ l.drop j := by
    rw [List.drop_eq_getElem_cons hj]
    exact List.mem_cons_self _ _
  exact fun hin => hdisj hin hmem

/-- The scheduler step when the current study still has backlog: select an
interview from it and stay. -/
theorem schedStep_select (studies : List String) (st : SchedState)
    (h : st.backlog st.study_id ≠ 0) :
    schedStep studies st =
      ({ st with
          counter := st.counter + 1,
          backlog := fun s =>
            if s = st.study_id then st.backlog s - 1 else st.backlog s },
        [SchedEvent.select st.study_id]) := by
  unfold schedStep
  rw [if_neg h]

/-- The scheduler step on an empty non-last study: advance the cursor. -/
theorem schedStep_advance (studies : List String) (st : SchedState)
    (hb : st.backlog st.study_id = 0)
    (hne : st.study_id ≠ studies.getLastD "") :
    schedStep studies st =
      ({ st with
          study_id := studies.getD (studies.indexOf st.study_id + 1) "" },
        [SchedEvent.advance
          (studies.getD (studies.indexOf st.study_id + 1) "")]) := by
  unfold schedStep
  rw [if_pos hb, if_neg hne]

/-- The scheduler step on the empty last study: report when the counter is
positive, snooze, restart from the first study. -/
theorem schedStep_snooze (studies : List String) (st : SchedState)
    (hb : st.backlog st.study_id = 0)
    (hlast : st.study_id = studies.getLastD "") :
    schedStep studies st =
      ({ st with
          counter := if 0 < st.counter then 0 else st.counter,
          study_id := studies.headD "" },
        (if 0 < st.counter then [SchedEvent.report st.counter] else []) ++
          [SchedEvent.snooze]) := by
  unfold schedStep
  rw [if_pos hb, if_pos hlast]

/-- Over a full pass with empty backlogs: from position `i` the run of the
remaining `length - i` iterations advances through positions `i+1, ...`,
snoozes exactly once (at the last study), and no select events occur. -/
theorem schedRun_empty_pass (studies : List String) (hnd : studies.Nodup)
    (backlog0 : String → Nat) (hb : ∀ s, backlog0 s = 0) :
    ∀ (d i : Nat) (hi : i < studies.length), d = studies.length - 1 - i →
    ∀ c, (schedRun studies (studies.length - i)
      ⟨studies[i], c, backlog0⟩).2.count SchedEvent.snooze = 1 := by
  intro d
  induction d with
  | zero =>
    intro i hi hd c
    have hi' : i = studies.length - 1 := by omega
    subst hi'
    have hlen1 : studies.length - (studies.length - 1) = 1 := by omega
    rw [hlen1]
    have hstep := schedStep_snooze studies
      ⟨studies[studies.length - 1], c, backlog0⟩ (hb _)
      (by
        show studies[studies.length - 1] = studies.getLastD ""
        rw [getLastD_eq_getElem studies (by omega)])
    simp only [schedRun]
    rw [hstep]
    by_cases hc : 0 < c <;> simp [hc, List.count_append, List.count_cons]
  | succ d ih =>
    intro i hi hd c
    have hi1 : i + 1 < studies.length := by omega
    have hstep : schedStep studies ⟨studies[i], c, backlog0⟩ =
        (⟨studies[i + 1], c, backlog0⟩,
          [SchedEvent.advance (studies[i + 1])]) := by
      have hnl : (⟨studies[i], c, backlog0⟩ : SchedState).study_id ≠
          studies.getLastD "" := by
        show studies[i] ≠ studies.getLastD ""
        rw [getLastD_eq_getElem studies (by omega)]
        exact nodup_getElem_ne studies hnd i (studies.length - 1) hi
          (by omega) (by omega)
      rw [schedStep_advance studies _ (hb _) hnl]
      show (_, _) = (_, _)
      have hidx : studies.indexOf
          ((⟨studies[i], c, backlog0⟩ : SchedState).study_id) = i :=
        List.indexOf_getElem hnd i hi
      rw [hidx, getD_eq_getElem studies (i + 1) hi1]
    have hsub : studies.length - i = (studies.length - (i + 1)) + 1 := by omega
    rw [hsub]
    simp only [schedRun]
    rw [hstep]
    dsimp only
    rw [List.count_append]
    have hrec := ih (i + 1) hi1 (by omega) c
    rw [hrec]
    simp [List.count_cons]

/-! ## Claim theorems: scheduler (C6, C9) -/

/-- C6: (a) one loop iteration snoozes iff the current study has no ready
interview AND it is the last study of the list — an empty non-last study only
advances; (b) on that transition a progress report is emitted iff the counter
is positive, the counter is reset to 0, and the cursor returns to the first
study; (c) a full pass over `N` studies with all backlogs empty snoozes
exactly once. -/
theorem snooze_once_per_empty_pass (studies : List String)
    (hnd : studies.Nodup) (hne : studies ≠ []) :
    (∀ st : SchedState,
      SchedEvent.snooze ∈ (schedStep studies st).2 ↔
        st.backlog st.study_id = 0 ∧ st.study_id = studies.getLastD "")
    ∧ (∀ st : SchedState, st.backlog st.study_id = 0 →
        st.study_id = studies.getLastD "" →
        (SchedEvent.report st.counter ∈ (schedStep studies st).2 ↔
            0 < st.counter)
          ∧ (schedStep studies st).1.counter = 0
          ∧ (schedStep studies st).1.study_id = studies.headD "")
    ∧ (∀ backlog0 : String → Nat, (∀ s, backlog0 s = 0) → ∀ c,
        (schedRun studies studies.length
          ⟨studies.headD "", c, backlog0⟩).2.count SchedEvent.snooze = 1) := by
  have hlen : 0 < studies.length := List.length_pos.2 hne
  refine ⟨?_, ?_, ?_⟩
  · intro st
    constructor
    · intro hmem
      by_cases hb : st.backlog st.study_id = 0
      · by_cases hlast : st.study_id = studies.getLastD ""
        · exact ⟨hb, hlast⟩
        · rw [schedStep_advance studies st hb hlast] at hmem
          simp at hmem
      · rw [schedStep_select studies st hb] at hmem
        simp at hmem
    · rintro ⟨hb, hlast⟩
      rw [schedStep_snooze studies st hb hlast]
      simp
  · intro st hb hlast
    rw [schedStep_snooze studies st hb hlast]
    refine ⟨?_, ?_, rfl⟩
    · constructor
      · intro hmem
        by_cases hc : 0 < st.counter
        · exact hc
        · rw [if_neg hc] at hmem
          simp at hmem
          exact hmem
      · intro hc
        rw [if_pos hc]
        simp
        exact hc
    · show (if 0 < st.counter then 0 else st.counter) = 0
      by_cases hc : 0 < st.counter
      · rw [if_pos hc]
      · rw [if_neg hc]
        omega
  · intro backlog0 hb c
    have h0 := schedRun_empty_pass studies hnd backlog0 hb
      (studies.length - 1 - 0) 0 hlen rfl c
    rw [headD_eq_getElem studies hlen]
    rw [Nat.sub_zero] at h0
    exact h0

/-- Witness for C6: two studies, empty backlogs. -/
theorem snooze_once_per_empty_pass_witness :
    (["ChicagoA", "ChicagoB"] : List String).Nodup
    ∧ (["ChicagoA", "ChicagoB"] : List String) ≠ []
    ∧ ((∀ st : SchedState,
        SchedEvent.snooze ∈ (schedStep ["ChicagoA", "ChicagoB"] st).2 ↔
          st.backlog st.study_id = 0
            ∧ st.study_id = (["ChicagoA", "ChicagoB"] : List String).getLastD "")
      ∧ (∀ st : SchedState, st.backlog st.study_id = 0 →
          st.study_id = (["ChicagoA", "ChicagoB"] : List String).getLastD "" →
          (SchedEvent.report st.counter ∈
              (schedStep ["ChicagoA", "ChicagoB"] st).2 ↔ 0 < st.counter)
            ∧ (schedStep ["ChicagoA", "ChicagoB"] st).1.counter = 0
            ∧ (schedStep ["ChicagoA", "ChicagoB"] st).1.study_id =
              (["ChicagoA", "ChicagoB"] : List String).headD "")
      ∧ (∀ backlog0 : String → Nat, (∀ s, backlog0 s = 0) → ∀ c,
          (schedRun ["ChicagoA", "ChicagoB"] 2
            ⟨(["ChicagoA", "ChicagoB"] : List String).headD "", c,
              backlog0⟩).2.count SchedEvent.snooze = 1)) :=
  ⟨by decide, by decide,
    snooze_once_per_empty_pass ["ChicagoA", "ChicagoB"] (by decide) (by decide)⟩

/-- Splitting a run into two consecutive runs. -/
theorem schedRun_add (studies : List String) (m n : Nat) :
    ∀ st : SchedState,
    schedRun studies (m + n) st =
      ((schedRun studies n (schedRun studies m st).1).1,
        (schedRun studies m st).2 ++
          (schedRun studies n (schedRun studies m st).1).2) := by
  induction m with
  | zero =>
    intro st
    simp only [Nat.zero_add, schedRun]
    rfl
  | succ m ih =>
    intro st
    have hnum : m + 1 + n = (m + n) + 1 := by omega
    rw [hnum]
    simp only [schedRun]
    rw [ih (schedStep studies st).1]
    dsimp only
    rw [List.append_assoc]

/-- Draining a study: from a state whose current study has backlog `b`, the
next `b` iterations each select an interview from that study, leaving the
cursor in place, the counter increased by `b`, and that study's backlog at 0. -/
theorem schedRun_drain (studies : List String) :
    ∀ (b : Nat) (st : SchedState), st.backlog st.study_id = b →
    schedRun studies b st =
      ({ st with
          counter := st.counter + b,
          backlog := fun s => if s = st.study_id then 0 else st.backlog s },
        List.replicate b (SchedEvent.select st.study_id)) := by
  intro b
  induction b with
  | zero =>
    intro st hb
    have hbl : (fun s => if s = st.study_id then 0 else st.backlog s) =
        st.backlog := by
      funext s
      by_cases hs : s = st.study_id
      · rw [if_pos hs, hs, hb]
      · rw [if_neg hs]
    simp only [schedRun, Nat.add_zero, hbl, List.replicate]
  | succ b ih =>
    intro st hb
    have hstep := schedStep_select studies st (by omega)
    simp only [schedRun]
    rw [hstep]
    dsimp only
    rw [ih _ (by dsimp only; rw [if_pos rfl, hb]; omega)]
    dsimp only
    cases st with
    | mk study counter backlog =>
      dsimp only
      rw [Prod.mk.injEq]
      refine ⟨?_, ?_⟩
      · rw [SchedState.mk.injEq]
        refine ⟨rfl, by omega, ?_⟩
        funext s
        by_cases hs : s = study
        · rw [if_pos hs, if_pos hs]
        · rw [if_neg hs, if_neg hs, if_neg hs]
      · rw [List.replicate_succ, List.singleton_append]

/-- Is a scheduler event a cursor advance? -/
def isAdvance : SchedEvent → Bool
  | .advance _ => true
  | _ => false

/-- One iteration of the run. -/
theorem schedRun_one (studies : List String) (st : SchedState) :
    schedRun studies 1 st =
      ((schedStep studies st).1, (schedStep studies st).2 ++ []) := rfl

/-- Reaching study `j`: with a duplicate-free study list, some prefix of the
run from the first study reaches the cursor position `j` having advanced
exactly `j` times, with the earlier studies drained and the others untouched. -/
theorem schedRun_reach (studies : List String) (hnd : studies.Nodup)
    (backlog0 : String → Nat) :
    ∀ (j : Nat) (hj : j < studies.length),
    ∃ k, (schedRun studies k
        ⟨studies[0], 0, backlog0⟩).1.study_id = studies[j]
      ∧ (∀ s, (schedRun studies k
          ⟨studies[0], 0, backlog0⟩).1.backlog s =
          if s ∈ studies.take j then 0 else backlog0 s)
      ∧ (schedRun studies k
          ⟨studies[0], 0, backlog0⟩).2.countP isAdvance = j := by
  intro j
  induction j with
  | zero =>
    intro hj
    refine ⟨0, rfl, ?_, rfl⟩
    intro s
    simp [schedRun]
  | succ j ihj =>
    intro hj
    have hj' : j < studies.length := by omega
    have h0 : 0 < studies.length := by omega
    obtain ⟨k, hst, hbl, hcnt⟩ := ihj hj'
    set R := schedRun studies k ⟨studies[0], 0, backlog0⟩ with hR
    have hAb : R.1.backlog R.1.study_id = backlog0 (studies[j]) := by
      rw [hst, hbl, if_neg (nodup_getElem_not_mem_take studies hnd j hj')]
    have hdrain := schedRun_drain studies (backlog0 (studies[j])) R.1 hAb
    set B : SchedState :=
      ⟨R.1.study_id, R.1.counter + backlog0 (studies[j]),
        fun s => if s = R.1.study_id then 0 else R.1.backlog s⟩ with hBdef
    have hBb : B.backlog B.study_id = 0 := by
      show (if B.study_id = R.1.study_id then 0 else R.1.backlog B.study_id) = 0
      rw [if_pos rfl]
    have hnl : B.study_id ≠ studies.getLastD "" := by
      show R.1.study_id ≠ _
      rw [hst, getLastD_eq_getElem studies h0]
      exact nodup_getElem_ne studies hnd j (studies.length - 1) hj'
        (by omega) (by omega)
    have hstep := schedStep_advance studies B hBb hnl
    have hidx : studies.indexOf B.study_id = j := by
      show studies.indexOf R.1.study_id = j
      rw [hst]
      exact List.indexOf_getElem hnd j hj'
    rw [hidx, getD_eq_getElem studies (j + 1) hj] at hstep
    have htake : studies.take (j + 1) = studies.take j ++ [studies[j]] := by
      rw [List.take_succ, List.getElem?_eq_getElem hj']
      rfl
    have hfull : schedRun studies (k + backlog0 (studies[j]) + 1)
        ⟨studies[0], 0, backlog0⟩ =
        ({ B with study_id := studies[j + 1] },
          R.2 ++ (List.replicate (backlog0 (studies[j]))
              (SchedEvent.select R.1.study_id) ++
            ([SchedEvent.advance (studies[j + 1])] ++ []))) := by
      rw [schedRun_add studies (k + backlog0 (studies[j])) 1]
      rw [schedRun_add studies k (backlog0 (studies[j]))]
      rw [← hR, hdrain]
      dsimp only
      rw [schedRun_one, hstep]
      dsimp only
      rw [List.append_assoc]
    refine ⟨k + backlog0 (studies[j]) + 1, ?_, ?_, ?_⟩
    · rw [hfull]
    · intro s
      rw [hfull]
      show (if s = R.1.study_id then 0 else R.1.backlog s) = _
      rw [hst, hbl s, htake]
      by_cases hs : s = studies[j]
      · rw [if_pos hs,
          if_pos (List.mem_append_right _ (hs ▸ List.mem_singleton_self _))]
      · rw [if_neg hs]
        by_cases hmem : s ∈ studies.take j
        · rw [if_pos hmem, if_pos (List.mem_append_left _ hmem)]
        · rw [if_neg hmem, if_neg ?_]
          intro hin
          rcases List.mem_append.1 hin with hin | hin
          · exact hmem hin
          · exact hs (List.mem_singleton.1 hin)
    · rw [hfull]
      show (R.2 ++ _).countP isAdvance = j + 1
      rw [List.countP_append, hcnt, List.countP_append, List.countP_append]
      have hrep : (List.replicate (backlog0 (studies[j]))
          (SchedEvent.select R.1.study_id)).countP isAdvance = 0 := by
        rw [List.countP_eq_zero]
        intro e he
        rw [List.eq_of_mem_replicate he]
        exact Bool.false_ne_true
      have h1 : List.countP isAdvance
          [SchedEvent.advance (studies[j + 1])] = 1 := rfl
      have h2 : List.countP isAdvance ([] : List SchedEvent) = 0 := rfl
      rw [hrep, h1, h2]

/-- C9: no study is starved.  With `N` duplicate-free studies, every one of
them with a non-empty backlog, the scheduler selects an interview from every
study `studies[j]` after some number of iterations, having advanced the
cursor at most `N - 1` times up to and including that selection: one study's
backlog cannot indefinitely prevent another study's interviews from being
processed. -/
theorem no_study_starved (studies : List String) (hnd : studies.Nodup)
    (backlog0 : String → Nat) (hpos : ∀ s ∈ studies, 0 < backlog0 s)
    (j : Nat) (hj : j < studies.length) :
    ∃ k, SchedEvent.select (studies[j]) ∈
        (schedRun studies k ⟨studies[0], 0, backlog0⟩).2
      ∧ (schedRun studies k
          ⟨studies[0], 0, backlog0⟩).2.countP isAdvance ≤
        studies.length - 1 := by
  have h0 : 0 < studies.length := by omega
  obtain ⟨k, hst, hbl, hcnt⟩ := schedRun_reach studies hnd backlog0 j hj
  set R := schedRun studies k ⟨studies[0], 0, backlog0⟩ with hR
  have hbpos : R.1.backlog R.1.study_id ≠ 0 := by
    rw [hst, hbl, if_neg (nodup_getElem_not_mem_take studies hnd j hj)]
    have := hpos (studies[j]) (List.getElem_mem hj)
    omega
  have hstep := schedStep_select studies R.1 hbpos
  refine ⟨k + 1, ?_, ?_⟩
  · rw [schedRun_add studies k 1, ← hR, schedRun_one, hstep]
    dsimp only
    rw [hst]
    exact List.mem_append_right _
      (List.mem_append_left _ (List.mem_singleton_self _))
  · rw [schedRun_add studies k 1, ← hR, schedRun_one, hstep]
    dsimp only
    rw [List.countP_append, hcnt]
    have h1 : List.countP isAdvance
        ([SchedEvent.select R.1.study_id] ++ []) = 0 := rfl
    rw [h1]
    omega

/-- Witness for C9: two studies with one ready interview each — the second
study is selected from after at most one advance. -/
theorem no_study_starved_witness :
    (["ChicagoA", "ChicagoB"] : List String).Nodup
    ∧ (∀ s ∈ (["ChicagoA", "ChicagoB"] : List String),
        0 < (fun _ : String => 1) s)
    ∧ 1 < (["ChicagoA", "ChicagoB"] : List String).length
    ∧ ∃ k, SchedEvent.select ((["ChicagoA", "ChicagoB"] : List String)[1]) ∈
        (schedRun ["ChicagoA", "ChicagoB"] k
          ⟨(["ChicagoA", "ChicagoB"] : List String)[0], 0,
            fun _ : String => 1⟩).2
      ∧ (schedRun ["ChicagoA", "ChicagoB"] k
          ⟨(["ChicagoA", "ChicagoB"] : List String)[0], 0,
            fun _ : String => 1⟩).2.countP isAdvance ≤
        (["ChicagoA", "ChicagoB"] : List String).length - 1 :=
  ⟨by decide, by decide, by decide,
    no_study_starved ["ChicagoA", "ChicagoB"] (by decide) (fun _ : String => 1)
      (by decide) 1 (by decide)⟩

end Exporter
